import Mathlib

/-!
Verification of the Ndundu finance app's core logic: interest accrual,
ledger aggregation, portfolio shares and the contribution store contract.

The repository ships several revisions of one script; two are embedded here:
revision 1 (`src/ndunduapp.py`) and revision 2 (`src/ndunduapp2.py`).
Dates are modelled as integer day numbers, so `(today - date).days`
becomes integer subtraction; Python float arithmetic is modelled over `ℝ`.
-/

namespace Ndundu

/-- Compounding policy, the configuration constant `COMPOUND_FREQUENCY`
(`"daily"` or `"monthly"`). -/
inductive Frequency
  | daily
  | monthly
deriving DecidableEq, Repr

/-- Revision 1 calculator (`src/ndunduapp.py`, `compute_interest`):
`delta_days = (today - date).days`, `years = delta_days / 365`; monthly
compounding uses `months = years * 12`; daily uses exponent `delta_days`.
There is no guard for future-dated contributions. -/
noncomputable def compute_interest1 (rate : ℝ) (freq : Frequency) (today : ℤ)
    (amount : ℝ) (date : ℤ) : ℝ :=
  let delta_days : ℤ := today - date
  let years : ℝ := (delta_days : ℝ) / 365
  let total : ℝ :=
    match freq with
    | .monthly => amount * ((1 + rate / 12) ^ (years * 12))
    | .daily => amount * ((1 + rate / 365) ^ delta_days)
  total - amount

/-- Revision 2 calculator (`src/ndunduapp2.py`, `compute_interest`):
returns `0.0` when `date > today`; otherwise monthly compounding uses
`months = delta_days / 30` and daily uses exponent `delta_days`. -/
noncomputable def compute_interest2 (rate : ℝ) (freq : Frequency) (today : ℤ)
    (amount : ℝ) (date : ℤ) : ℝ :=
  if date > today then 0
  else
    let delta_days : ℤ := today - date
    let total : ℝ :=
      match freq with
      | .monthly => amount * ((1 + rate / 12) ^ ((delta_days : ℝ) / 30))
      | .daily => amount * ((1 + rate / 365) ^ delta_days)
    total - amount

/-- C1 (amended): for every amount > 0 and contribution date strictly after
today, the revision 2 calculator returns exactly 0, for both compounding
policies.  (Revision 1 lacks the guard; see the counterexample.) -/
theorem future_interest_zero_rev2 (rate : ℝ) (freq : Frequency)
    (today date : ℤ) (amount : ℝ) (ha : 0 < amount) (hfuture : today < date) :
    compute_interest2 rate freq today amount date = 0 := by
  simp [compute_interest2, hfuture]

/-- Witness for C1: concrete future-dated contributions under both policies. -/
theorem future_interest_zero_rev2_witness :
    (0 : ℝ) < 1 ∧ (0 : ℤ) < 1 ∧
      compute_interest2 (12 / 100) .daily 0 1 1 = 0 ∧
      compute_interest2 (85 / 1000) .monthly 0 1 1 = 0 :=
  ⟨one_pos, one_pos,
    future_interest_zero_rev2 (12 / 100) .daily 0 1 1 one_pos one_pos,
    future_interest_zero_rev2 (85 / 1000) .monthly 0 1 1 one_pos one_pos⟩

/-- C1 counterexample: the revision 1 calculator has no future-date guard:
with rate 0.12, daily policy, amount 1 and a contribution dated one day
after today, it returns `(1 + 0.12/365)⁻¹ - 1 ≠ 0` (a negative value),
refuting the claim that both revisions return exactly 0 on future dates. -/
theorem future_interest_nonzero_rev1 :
    compute_interest1 (12 / 100) .daily 0 1 1 ≠ 0 := by
  simp only [compute_interest1]
  norm_num

/-- C2: under the daily policy with annual rate `r`, for every amount and
every whole-day age `d ≥ 0`, both revisions return
`amount * ((1 + r/365) ^ d - 1)`. -/
theorem daily_interest_formula (rate amount : ℝ) (today : ℤ) (d : ℕ)
    (ha : 0 < amount) :
    compute_interest1 rate .daily today amount (today - d) =
        amount * ((1 + rate / 365) ^ d - 1) ∧
    compute_interest2 rate .daily today amount (today - d) =
        amount * ((1 + rate / 365) ^ d - 1) := by
  have hdelta : today - (today - (d : ℤ)) = (d : ℤ) := by ring
  have hnotfuture : ¬ today < today - (d : ℤ) := by
    simp [Int.sub_le_self today (Int.ofNat_nonneg d)]
  constructor
  · simp only [compute_interest1, hdelta, zpow_natCast]
    ring
  · simp only [compute_interest2, if_neg hnotfuture, hdelta, zpow_natCast]
    ring

/-- Witness for C2: amount 1, rate 0.12, age 5 days, both revisions. -/
theorem daily_interest_formula_witness :
    (0 : ℝ) < 1 ∧
      compute_interest1 (12 / 100) .daily 0 1 (0 - (5 : ℕ)) =
        1 * ((1 + (12 / 100) / 365) ^ (5 : ℕ) - 1) ∧
      compute_interest2 (12 / 100) .daily 0 1 (0 - (5 : ℕ)) =
        1 * ((1 + (12 / 100) / 365) ^ (5 : ℕ) - 1) :=
  ⟨one_pos, (daily_interest_formula (12 / 100) 1 0 5 one_pos).1,
    (daily_interest_formula (12 / 100) 1 0 5 one_pos).2⟩

/-- C3 (amended): under the monthly policy the revision 2 calculator uses the
canonical 30-day month conversion `months = d / 30` and returns
`amount * ((1 + r/12) ^ (d/30) - 1)`.  (Revision 1 instead derives months as
`d / 365 * 12`; see the counterexample.) -/
theorem monthly_interest_formula_rev2 (rate amount : ℝ) (today : ℤ) (d : ℕ)
    (ha : 0 < amount) :
    compute_interest2 rate .monthly today amount (today - d) =
      amount * ((1 + rate / 12) ^ ((d : ℝ) / 30) - 1) := by
  have hdelta : today - (today - (d : ℤ)) = (d : ℤ) := by ring
  have hnotfuture : ¬ today < today - (d : ℤ) := by
    simp [Int.sub_le_self today (Int.ofNat_nonneg d)]
  simp only [compute_interest2, if_neg hnotfuture, hdelta, Int.cast_natCast]
  ring

/-- Witness for C3: amount 1, rate 0.085, age 60 days. -/
theorem monthly_interest_formula_rev2_witness :
    (0 : ℝ) < 1 ∧
      compute_interest2 (85 / 1000) .monthly 0 1 (0 - (60 : ℕ)) =
        1 * ((1 + (85 / 1000) / 12) ^ ((60 : ℝ) / 30) - 1) :=
  ⟨one_pos, monthly_interest_formula_rev2 (85 / 1000) 1 0 60 one_pos⟩

/-- C3 counterexample: the revision 1 calculator converts days to months as
`d / 365 * 12`, not `d / 30`: with rate 0.12, amount 1 and age 365 days it
returns `(1.01) ^ (12 : ℝ) - 1`, which differs from the claimed
`1 * ((1.01) ^ (365/30 : ℝ)) - 1` since `12 < 365/30`. -/
theorem monthly_conversion_differs_rev1 :
    compute_interest1 (12 / 100) .monthly 365 1 0 ≠
      1 * ((1 + (12 / 100) / 12) ^ ((365 : ℝ) / 30)) - 1 := by
  have hb : (1 : ℝ) < 1 + (12 / 100) / 12 := by norm_num
  have hexp : (((365 : ℤ) - 0 : ℤ) : ℝ) / 365 * 12 < (365 : ℝ) / 30 := by
    norm_num
  have hlt := (Real.rpow_lt_rpow_left_iff hb).mpr hexp
  simp only [compute_interest1]
  intro h
  rw [one_mul, one_mul, sub_left_inj] at h
  exact absurd h (ne_of_lt hlt)

/-- One stored contribution row (revision 2's `contributions` table:
`id, member_id, amount, date`).  Amounts are rationals (Python floats are
rational); dates are integer day numbers. -/
structure Contribution where
  id : ℕ
  member_id : String
  amount : ℚ
  date : ℤ
deriving DecidableEq, Repr

/-- The contributions belonging to one member: the dataframe filter
`contributions_df[contributions_df["member_id"] == member_id]` in
`compute_totals` (revision 2); revision 1 reads the member's own
contribution list, which holds exactly the same rows. -/
def memberContribs (mid : String) (contribs : List Contribution) :
    List Contribution :=
  contribs.filter (fun c => c.member_id == mid)

/-- `compute_totals`: principal, interest and total value of one member's
contributions, parametrised by the per-row interest calculator `ci`
(both revisions call their module's `compute_interest` here). -/
noncomputable def compute_totals (ci : ℚ → ℤ → ℝ) (mid : String)
    (contribs : List Contribution) : ℝ × ℝ × ℝ :=
  let cs := memberContribs mid contribs
  let principal : ℝ := (cs.map (fun c => ((c.amount : ℝ)))).sum
  let interest : ℝ := (cs.map (fun c => ci c.amount c.date)).sum
  (principal, interest, principal + interest)

/-- Revision 1's calculator applied to a stored amount. -/
noncomputable def calc1 (rate : ℝ) (freq : Frequency) (today : ℤ) :
    ℚ → ℤ → ℝ :=
  fun a d => compute_interest1 rate freq today (a : ℝ) d

/-- Revision 2's calculator applied to a stored amount. -/
noncomputable def calc2 (rate : ℝ) (freq : Frequency) (today : ℤ) :
    ℚ → ℤ → ℝ :=
  fun a d => compute_interest2 rate freq today (a : ℝ) d

/-- A member's total portfolio value (`total_value` in `compute_totals`). -/
noncomputable def member_total (ci : ℚ → ℤ → ℝ) (mid : String)
    (contribs : List Contribution) : ℝ :=
  (compute_totals ci mid contribs).2.2

/-- `grand_total`: the sum of all members' total values, as accumulated in
the Generate All Member Statements handler of both revisions. -/
noncomputable def grand_total (ci : ℚ → ℤ → ℝ) (members : List String)
    (contribs : List Contribution) : ℝ :=
  (members.map (fun m => member_total ci m contribs)).sum

/-- Revision 2's share of the grand total:
`ratio = t / grand_total if grand_total else 0`. -/
noncomputable def memberShare2 (ci : ℚ → ℤ → ℝ) (members : List String)
    (contribs : List Contribution) (mid : String) : ℝ :=
  if grand_total ci members contribs ≠ 0 then
    member_total ci mid contribs / grand_total ci members contribs
  else 0

/-- Revision 1's share of the grand total:
`ratio = total_value / grand_total if grand_total > 0 else 0`. -/
noncomputable def memberShare1 (ci : ℚ → ℤ → ℝ) (members : List String)
    (contribs : List Contribution) (mid : String) : ℝ :=
  if 0 < grand_total ci members contribs then
    member_total ci mid contribs / grand_total ci members contribs
  else 0

lemma sum_map_add_eq {α : Type} (l : List α) (f g : α → ℝ) :
    (l.map fun x => f x + g x).sum = (l.map f).sum + (l.map g).sum := by
  induction l with
  | nil => simp
  | cons a t ih => simp only [List.map_cons, List.sum_cons, ih]; ring

lemma sum_map_div_eq {α : Type} (l : List α) (f : α → ℝ) (g : ℝ) :
    (l.map fun x => f x / g).sum = (l.map f).sum / g := by
  induction l with
  | nil => simp
  | cons a t ih => simp only [List.map_cons, List.sum_cons, ih]; ring

/-- Each contribution's total value `amount + interest` is positive under
the revision 1 calculator, for nonnegative rates and positive amounts. -/
lemma calc1_row_total_pos (rate : ℝ) (freq : Frequency) (today : ℤ)
    (hr : 0 ≤ rate) (a : ℚ) (d : ℤ) (ha : 0 < a) :
    0 < (a : ℝ) + calc1 rate freq today a d := by
  have ha' : (0 : ℝ) < (a : ℝ) := by exact_mod_cast ha
  cases freq with
  | monthly =>
    have hb : (0 : ℝ) < 1 + rate / 12 := by linarith
    simp only [calc1, compute_interest1, add_sub_cancel]
    exact mul_pos ha' (Real.rpow_pos_of_pos hb _)
  | daily =>
    have hb : (0 : ℝ) < 1 + rate / 365 := by linarith
    simp only [calc1, compute_interest1, add_sub_cancel]
    exact mul_pos ha' (zpow_pos hb _)

/-- Each contribution's total value `amount + interest` is positive under
the revision 2 calculator, for nonnegative rates and positive amounts. -/
lemma calc2_row_total_pos (rate : ℝ) (freq : Frequency) (today : ℤ)
    (hr : 0 ≤ rate) (a : ℚ) (d : ℤ) (ha : 0 < a) :
    0 < (a : ℝ) + calc2 rate freq today a d := by
  have ha' : (0 : ℝ) < (a : ℝ) := by exact_mod_cast ha
  by_cases hf : today < d
  · simp only [calc2, compute_interest2, if_pos hf]
    linarith
  · cases freq with
    | monthly =>
      have hb : (0 : ℝ) < 1 + rate / 12 := by linarith
      simp only [calc2, compute_interest2, if_neg hf, add_sub_cancel]
      exact mul_pos ha' (Real.rpow_pos_of_pos hb _)
    | daily =>
      have hb : (0 : ℝ) < 1 + rate / 365 := by linarith
      simp only [calc2, compute_interest2, if_neg hf, add_sub_cancel]
      exact mul_pos ha' (zpow_pos hb _)

/-- A member's total value is a sum of per-row totals. -/
lemma member_total_eq_sum (ci : ℚ → ℤ → ℝ) (mid : String)
    (contribs : List Contribution) :
    member_total ci mid contribs =
      ((memberContribs mid contribs).map
        (fun c => (c.amount : ℝ) + ci c.amount c.date)).sum := by
  simp only [member_total, compute_totals, sum_map_add_eq]

/-- A member's total value is nonnegative whenever every stored amount is
positive and the per-row total is positive on positive amounts. -/
lemma member_total_nonneg (ci : ℚ → ℤ → ℝ) (mid : String)
    (contribs : List Contribution)
    (hci : ∀ (a : ℚ) (d : ℤ), 0 < a → 0 < (a : ℝ) + ci a d)
    (hc : ∀ c ∈ contribs, 0 < c.amount) :
    0 ≤ member_total ci mid contribs := by
  rw [member_total_eq_sum]
  apply List.sum_nonneg
  intro x hx
  rcases List.mem_map.mp hx with ⟨c, hcmem, rfl⟩
  have : c ∈ contribs := List.mem_of_mem_filter hcmem
  exact le_of_lt (hci c.amount c.date (hc c this))

/-- The grand total is nonnegative under the same hypotheses. -/
lemma grand_total_nonneg (ci : ℚ → ℤ → ℝ) (members : List String)
    (contribs : List Contribution)
    (hci : ∀ (a : ℚ) (d : ℤ), 0 < a → 0 < (a : ℝ) + ci a d)
    (hc : ∀ c ∈ contribs, 0 < c.amount) :
    0 ≤ grand_total ci members contribs := by
  apply List.sum_nonneg
  intro x hx
  rcases List.mem_map.mp hx with ⟨m, _, rfl⟩
  exact member_total_nonneg ci m contribs hci hc

/-- C5: for every member of a portfolio summary, the share equals the
member's total value divided by the grand total when the grand total is
nonzero, and 0 when the grand total is 0, in both revisions.  (Revision 1
guards with `grand_total > 0`, which coincides with `grand_total ≠ 0`
because all stored amounts are positive and the rate is nonnegative.) -/
theorem member_share_spec (rate : ℝ) (freq : Frequency) (today : ℤ)
    (members : List String) (contribs : List Contribution) (mid : String)
    (hr : 0 ≤ rate) (hc : ∀ c ∈ contribs, 0 < c.amount) :
    memberShare2 (calc2 rate freq today) members contribs mid =
      (if grand_total (calc2 rate freq today) members contribs = 0 then 0
       else member_total (calc2 rate freq today) mid contribs /
         grand_total (calc2 rate freq today) members contribs) ∧
    memberShare1 (calc1 rate freq today) members contribs mid =
      (if grand_total (calc1 rate freq today) members contribs = 0 then 0
       else member_total (calc1 rate freq today) mid contribs /
         grand_total (calc1 rate freq today) members contribs) := by
  constructor
  · by_cases hg : grand_total (calc2 rate freq today) members contribs = 0
    · simp [memberShare2, hg]
    · simp [memberShare2, hg]
  · have hge : 0 ≤ grand_total (calc1 rate freq today) members contribs :=
      grand_total_nonneg _ members contribs
        (fun a d ha => calc1_row_total_pos rate freq today hr a d ha) hc
    by_cases hg : grand_total (calc1 rate freq today) members contribs = 0
    · simp [memberShare1, hg]
    · have hpos : 0 < grand_total (calc1 rate freq today) members contribs :=
        lt_of_le_of_ne hge (Ne.symm hg)
      simp [memberShare1, hg, hpos]

/-- Witness for C5: one member, no contributions, grand total 0, share 0. -/
theorem member_share_spec_witness :
    (0 : ℝ) ≤ 85 / 1000 ∧
      memberShare2 (calc2 (85 / 1000) .daily 0) ["m1"] [] "m1" =
        (if grand_total (calc2 (85 / 1000) .daily 0) ["m1"] [] = 0 then 0
         else member_total (calc2 (85 / 1000) .daily 0) "m1" [] /
           grand_total (calc2 (85 / 1000) .daily 0) ["m1"] []) ∧
      memberShare1 (calc1 (85 / 1000) .daily 0) ["m1"] [] "m1" =
        (if grand_total (calc1 (85 / 1000) .daily 0) ["m1"] [] = 0 then 0
         else member_total (calc1 (85 / 1000) .daily 0) "m1" [] /
           grand_total (calc1 (85 / 1000) .daily 0) ["m1"] []) :=
  ⟨by norm_num,
    (member_share_spec (85 / 1000) .daily 0 ["m1"] [] "m1" (by norm_num)
      (by simp)).1,
    (member_share_spec (85 / 1000) .daily 0 ["m1"] [] "m1" (by norm_num)
      (by simp)).2⟩

/-- C6: when the grand total is positive, the shares sum to exactly 1 over
the member list (both revisions); when the grand total is 0, every member's
share is 0. -/
theorem share_sum_one (ci : ℚ → ℤ → ℝ) (members : List String)
    (contribs : List Contribution) :
    (0 < grand_total ci members contribs →
      (members.map (memberShare2 ci members contribs)).sum = 1 ∧
      (members.map (memberShare1 ci members contribs)).sum = 1) ∧
    (grand_total ci members contribs = 0 →
      ∀ m ∈ members, memberShare2 ci members contribs m = 0 ∧
        memberShare1 ci members contribs m = 0) := by
  constructor
  · intro hg
    have hne : grand_total ci members contribs ≠ 0 := ne_of_gt hg
    constructor
    · have hmap : members.map (memberShare2 ci members contribs) =
          members.map (fun m => member_total ci m contribs /
            grand_total ci members contribs) := by
        apply List.map_congr_left
        intro m _
        simp [memberShare2, hne]
      rw [hmap, sum_map_div_eq]
      exact div_self hne
    · have hmap : members.map (memberShare1 ci members contribs) =
          members.map (fun m => member_total ci m contribs /
            grand_total ci members contribs) := by
        apply List.map_congr_left
        intro m _
        simp [memberShare1, hg]
      rw [hmap, sum_map_div_eq]
      exact div_self hne
  · intro h0 m _
    constructor
    · simp [memberShare2, h0]
    · simp [memberShare1, h0]

/-- A concrete store used by witnesses: one member `m1` with a single
contribution of amount 1 dated `today`. -/
def demoContribs : List Contribution := [⟨0, "m1", 1, 0⟩]

/-- The zero calculator, used only to instantiate generic theorems. -/
def calcZero : ℚ → ℤ → ℝ := fun _ _ => 0

lemma grand_total_demo_pos : 0 < grand_total calcZero ["m1"] demoContribs := by
  simp [grand_total, member_total, compute_totals, memberContribs,
    demoContribs, calcZero, List.filter]

/-- Witness for C6: with one member holding one contribution the shares sum
to 1 under both revisions' guards. -/
theorem share_sum_one_witness :
    0 < grand_total calcZero ["m1"] demoContribs ∧
      (["m1"].map (memberShare2 calcZero ["m1"] demoContribs)).sum = 1 ∧
      (["m1"].map (memberShare1 calcZero ["m1"] demoContribs)).sum = 1 :=
  ⟨grand_total_demo_pos,
    ((share_sum_one calcZero ["m1"] demoContribs).1 grand_total_demo_pos).1,
    ((share_sum_one calcZero ["m1"] demoContribs).1 grand_total_demo_pos).2⟩

/-- One derived ledger row: principal, computed interest, total value and
the cumulative running balance.  Derived, never persisted. -/
structure LedgerRow where
  date : ℤ
  principal : ℝ
  interest : ℝ
  total : ℝ
  balance : ℝ

/-- Date-ascending comparison used to sort a member's ledger. -/
def dateLe (a b : Contribution) : Prop := a.date ≤ b.date

instance : DecidableRel dateLe :=
  fun a b => inferInstanceAs (Decidable (a.date ≤ b.date))

instance : IsTotal Contribution dateLe :=
  ⟨fun a b => le_total a.date b.date⟩

instance : IsTrans Contribution dateLe :=
  ⟨fun _ _ _ hab hbc => le_trans hab hbc⟩

/-- Ledger rows in order, threading the cumulative running balance `acc`. -/
noncomputable def ledgerRows (ci : ℚ → ℤ → ℝ) (acc : ℝ) :
    List Contribution → List LedgerRow
  | [] => []
  | c :: cs =>
    let i : ℝ := ci c.amount c.date
    let t : ℝ := (c.amount : ℝ) + i
    ⟨c.date, (c.amount : ℝ), i, t, acc + t⟩ :: ledgerRows ci (acc + t) cs

/-- Modelled from the spec: `build_ledger` (LedgerAggregator, spec §4.2).
The sorted running-balance ledger is implemented in repository revisions
that are not included under `src/`; the `src/ndunduapp2.py` ledger section
only computes per-row interest and total value over `fetch_contributions`.
Following the spec's words, this filters to the member, sorts by
contribution date ascending (a stable insertion sort, so ties keep store
insertion order) and threads a cumulative running balance starting at 0. -/
noncomputable def build_ledger (ci : ℚ → ℤ → ℝ) (mid : String)
    (contribs : List Contribution) : List LedgerRow :=
  ledgerRows ci 0 (List.insertionSort dateLe (memberContribs mid contribs))

lemma ledgerRows_length (ci : ℚ → ℤ → ℝ) :
    ∀ (l : List Contribution) (acc : ℝ),
      (ledgerRows ci acc l).length = l.length := by
  intro l
  induction l with
  | nil => intro acc; simp [ledgerRows]
  | cons c cs ih => intro acc; simp [ledgerRows, ih]

lemma ledgerRows_map_date (ci : ℚ → ℤ → ℝ) :
    ∀ (l : List Contribution) (acc : ℝ),
      (ledgerRows ci acc l).map LedgerRow.date = l.map Contribution.date := by
  intro l
  induction l with
  | nil => intro acc; simp [ledgerRows]
  | cons c cs ih => intro acc; simp [ledgerRows, ih]

lemma ledgerRows_balance_get (ci : ℚ → ℤ → ℝ) :
    ∀ (l : List Contribution) (acc : ℝ) (i : ℕ)
      (h : i < (ledgerRows ci acc l).length),
      ((ledgerRows ci acc l).get ⟨i, h⟩).balance =
        acc + (((ledgerRows ci acc l).map LedgerRow.total).take (i + 1)).sum := by
  intro l
  induction l with
  | nil => intro acc i h; simp [ledgerRows] at h
  | cons c cs ih =>
    intro acc i h
    cases i with
    | zero => simp [ledgerRows]
    | succ n =>
      simp only [ledgerRows, List.get_cons_succ, List.map_cons,
        List.take_succ_cons, List.sum_cons]
      rw [ih]
      ring

lemma ledgerRows_head_balance (ci : ℚ → ℤ → ℝ) (l : List Contribution)
    (acc : ℝ) (h : ledgerRows ci acc l ≠ []) :
    ((ledgerRows ci acc l).head h).balance =
      acc + ((ledgerRows ci acc l).head h).total := by
  cases l with
  | nil => simp [ledgerRows] at h
  | cons c cs => simp [ledgerRows]

lemma ledgerRows_getLast_balance (ci : ℚ → ℤ → ℝ) :
    ∀ (l : List Contribution) (acc : ℝ) (h : ledgerRows ci acc l ≠ []),
      ((ledgerRows ci acc l).getLast h).balance =
        acc + ((ledgerRows ci acc l).map LedgerRow.total).sum := by
  intro l
  induction l with
  | nil => intro acc h; simp [ledgerRows] at h
  | cons c cs ih =>
    intro acc h
    by_cases hcs : cs = []
    · subst hcs; simp [ledgerRows]
    · have h2 : ledgerRows ci (acc + ((c.amount : ℝ) + ci c.amount c.date))
          cs ≠ [] := by
        intro hnil
        apply hcs
        have := congrArg List.length hnil
        rw [ledgerRows_length] at this
        exact List.eq_nil_of_length_eq_zero this
      simp only [ledgerRows, List.map_cons, List.sum_cons]
      rw [List.getLast_cons h2, ih _ h2]
      ring

/-- C4 (spec-modelled): the ledger built for a member is sorted by
contribution date ascending; the first row's running balance is its own
total value; each later row's running balance is the previous row's balance
plus that row's total value; and the last running balance equals the sum of
all total values. -/
theorem build_ledger_spec (ci : ℚ → ℤ → ℝ) (mid : String)
    (contribs : List Contribution) :
    (build_ledger ci mid contribs).Pairwise (fun a b => a.date ≤ b.date) ∧
    (∀ h : build_ledger ci mid contribs ≠ [],
      ((build_ledger ci mid contribs).head h).balance =
        ((build_ledger ci mid contribs).head h).total) ∧
    (∀ (i : ℕ) (h : i + 1 < (build_ledger ci mid contribs).length),
      ((build_ledger ci mid contribs).get ⟨i + 1, h⟩).balance =
        ((build_ledger ci mid contribs).get
            ⟨i, Nat.lt_of_succ_lt h⟩).balance +
          ((build_ledger ci mid contribs).get ⟨i + 1, h⟩).total) ∧
    (∀ h : build_ledger ci mid contribs ≠ [],
      ((build_ledger ci mid contribs).getLast h).balance =
        ((build_ledger ci mid contribs).map LedgerRow.total).sum) := by
  refine ⟨?_, ?_, ?_, ?_⟩
  · have hs : (List.insertionSort dateLe (memberContribs mid contribs)).Pairwise
        dateLe := List.sorted_insertionSort dateLe _
    have h1 : ((build_ledger ci mid contribs).map LedgerRow.date).Pairwise
        (· ≤ ·) := by
      rw [build_ledger, ledgerRows_map_date]
      exact List.pairwise_map.mpr hs
    exact List.pairwise_map.mp h1
  · intro h
    simp only [build_ledger] at h ⊢
    rw [ledgerRows_head_balance ci _ 0 h]
    ring
  · intro i h
    simp only [build_ledger] at h ⊢
    rw [ledgerRows_balance_get, ledgerRows_balance_get]
    have hT : i + 1 <
        ((ledgerRows ci 0
          (List.insertionSort dateLe (memberContribs mid contribs))).map
            LedgerRow.total).length := by
      simpa using h
    rw [List.sum_take_succ _ (i + 1) hT]
    simp [List.getElem_map, List.get_eq_getElem]
  · intro h
    simp only [build_ledger] at h ⊢
    rw [ledgerRows_getLast_balance ci _ 0 h]
    ring

lemma demo_ledger_ne_nil : build_ledger calcZero "m1" demoContribs ≠ [] := by
  simp [build_ledger, demoContribs, memberContribs, List.filter,
    List.insertionSort, ledgerRows]

/-- Witness for C4: the one-row demo ledger is date-sorted, its first
balance is its own total and its last balance is the sum of totals. -/
theorem build_ledger_spec_witness :
    (build_ledger calcZero "m1" demoContribs).Pairwise
      (fun a b => a.date ≤ b.date) ∧
    ((build_ledger calcZero "m1" demoContribs).head
        demo_ledger_ne_nil).balance =
      ((build_ledger calcZero "m1" demoContribs).head
        demo_ledger_ne_nil).total ∧
    ((build_ledger calcZero "m1" demoContribs).getLast
        demo_ledger_ne_nil).balance =
      ((build_ledger calcZero "m1" demoContribs).map LedgerRow.total).sum :=
  ⟨(build_ledger_spec calcZero "m1" demoContribs).1,
    (build_ledger_spec calcZero "m1" demoContribs).2.1 demo_ledger_ne_nil,
    (build_ledger_spec calcZero "m1" demoContribs).2.2.2 demo_ledger_ne_nil⟩

/-- C9: a member with zero contributions gets an empty ledger (not an
error) and a summary of principal 0, interest 0, total 0. -/
theorem empty_member_summary (ci : ℚ → ℤ → ℝ) (mid : String)
    (contribs : List Contribution)
    (h : ∀ c ∈ contribs, c.member_id ≠ mid) :
    build_ledger ci mid contribs = [] ∧
      compute_totals ci mid contribs = (0, 0, 0) := by
  have hfil : memberContribs mid contribs = [] := by
    apply List.filter_eq_nil_iff.mpr
    intro c hc
    simp [h c hc]
  constructor
  · simp [build_ledger, hfil, List.insertionSort, ledgerRows]
  · simp [compute_totals, hfil]

/-- Witness for C9: a member id that owns none of the stored rows. -/
theorem empty_member_summary_witness :
    build_ledger calcZero "m2" demoContribs = [] ∧
      compute_totals calcZero "m2" demoContribs = (0, 0, 0) :=
  empty_member_summary calcZero "m2" demoContribs (by decide)

/-- A contribution as stored by revision 1's in-memory dict:
`{"amount": amount, "date": date}`. -/
structure Contribution1 where
  amount : ℚ
  date : ℤ
deriving DecidableEq, Repr

/-- Revision 1's member record: `{name, contributions[]}`. -/
structure MemberRec where
  name : String
  contributions : List Contribution1
deriving DecidableEq, Repr

/-- Revision 1's store: the session dict `{member_id: {name, contributions}}`,
modelled as a partial map from member id to record. -/
def Store1 := String → Option MemberRec

/-- Revision 1's Add Member handler (`src/ndunduapp.py`, lines 75-77):
`st.session_state.members[member_id] = {"name": name, "contributions": []}`
— a plain dict assignment with no duplicate check. -/
def register_member1 (s : Store1) (mid name : String) : Store1 :=
  fun k => if k = mid then some ⟨name, []⟩ else s k

/-- A revision 1 store holding member `m1` (Alice) with one contribution. -/
def store1_demo : Store1 :=
  fun k => if k = "m1" then some ⟨"Alice", [⟨5, 0⟩]⟩ else none

/-- C7 counterexample: revision 1's Add Member handler does not fail on a
duplicate id — it silently overwrites the existing member, resetting the
name and discarding the stored contributions, so the store is not left
unchanged. -/
theorem register_member1_overwrites :
    (register_member1 store1_demo "m1" "Bob") "m1" = some ⟨"Bob", []⟩ ∧
      store1_demo "m1" = some ⟨"Alice", [⟨5, 0⟩]⟩ ∧
      register_member1 store1_demo "m1" "Bob" ≠ store1_demo := by
  refine ⟨by simp [register_member1], by simp [store1_demo], ?_⟩
  intro h
  have h1 := congrFun h "m1"
  simp [register_member1, store1_demo] at h1

/-- The store error taxonomy of spec §7. -/
inductive StoreError
  | DuplicateMemberError
  | UnknownMemberError
  | NotFoundError
  | ValidationError
deriving DecidableEq, Repr

/-- Revision 2's persistent store: the `members` and `contributions`
tables. -/
structure Store2 where
  members : List (String × String)
  contributions : List Contribution
deriving DecidableEq, Repr

/-- Modelled from the spec: revision 2's `add_member` inserts into the
`members` table whose `member_id` is a primary key (spec §6), so the insert
fails when the id already exists; the uniqueness check itself runs in the
hosted table service, which is not under `src/`, and the form handler
surfaces the failure as "Member ID already exists". -/
def add_member2 (s : Store2) (mid name : String) : Except StoreError Store2 :=
  if s.members.any (fun p => p.1 == mid) then
    .error .DuplicateMemberError
  else
    .ok { s with members := s.members ++ [(mid, name.trim)] }

/-- Revision 2's `add_contribution` (`src/ndunduapp2.py`, lines 80-85): a
plain insert of `{member_id, amount, date}`; the store assigns the row id.
No amount validation is performed here. -/
def add_contribution2 (s : Store2) (mid : String) (amount : ℚ) (date : ℤ) :
    Store2 :=
  { s with contributions :=
      s.contributions ++ [⟨s.contributions.length, mid, amount, date⟩] }

/-- Revision 2's `update_contribution` (`src/ndunduapp2.py`, lines 87-91):
updates `amount` and `date` of the row whose id matches.  No amount
validation is performed here. -/
def update_contribution2 (s : Store2) (cid : ℕ) (amount : ℚ) (date : ℤ) :
    Store2 :=
  { s with contributions :=
      (s.contributions.map (fun c =>
        if c.id = cid then { c with amount := amount, date := date }
        else c)) }

/-- C7 (amended): against the revision 2 store, registering an
already-registered member id fails with `DuplicateMemberError`; since no
new store is produced, the existing member's row and all contributions are
preserved.  (Revision 1's in-memory handler instead overwrites; see the
counterexample.) -/
theorem add_member2_duplicate (s : Store2) (mid name : String)
    (h : ∃ p ∈ s.members, p.1 = mid) :
    add_member2 s mid name = .error .DuplicateMemberError ∧
      ∀ s', add_member2 s mid name ≠ .ok s' := by
  have hany : s.members.any (fun p => p.1 == mid) = true := by
    rcases h with ⟨p, hp, he⟩
    exact List.any_eq_true.mpr ⟨p, hp, by simp [he]⟩
  refine ⟨by simp [add_member2, hany], ?_⟩
  intro s' hok
  simp [add_member2, hany] at hok

/-- Witness for C7: re-registering `m1` on a store that already has it. -/
theorem add_member2_duplicate_witness :
    add_member2 ⟨[("m1", "Alice")], []⟩ "m1" "Bob" =
        Except.error StoreError.DuplicateMemberError ∧
      ∀ s', add_member2 ⟨[("m1", "Alice")], []⟩ "m1" "Bob" ≠ Except.ok s' :=
  add_member2_duplicate ⟨[("m1", "Alice")], []⟩ "m1" "Bob"
    ⟨("m1", "Alice"), by simp, rfl⟩

/-- C8 counterexample: `add_contribution` performs no validation: with a
non-positive amount it stores the row instead of failing with
`ValidationError`, violating the claimed invariant. -/
theorem add_contribution2_accepts_nonpositive :
    (add_contribution2 ⟨[], []⟩ "m1" (-5) 0).contributions =
        [⟨0, "m1", -5, 0⟩] ∧
      ¬ ∀ c ∈ (add_contribution2 ⟨[], []⟩ "m1" (-5) 0).contributions,
          0 < c.amount := by
  constructor
  · simp [add_contribution2]
  · intro hall
    have := hall ⟨0, "m1", -5, 0⟩ (by simp [add_contribution2])
    norm_num at this

/-- C8 (amended): the store operations themselves do not validate amounts;
the amount form field enforces `min_value = 1.0`, so every operation issued
through the app's forms carries an amount ≥ 1, and under that precondition
the all-amounts-positive invariant is preserved by `add_contribution`,
`update_contribution` and `add_member`. -/
theorem amount_invariant_preserved (s : Store2) (mid name : String)
    (cid : ℕ) (amount : ℚ) (date : ℤ)
    (hs : ∀ c ∈ s.contributions, 0 < c.amount) (hamt : 1 ≤ amount) :
    (∀ c ∈ (add_contribution2 s mid amount date).contributions,
      0 < c.amount) ∧
    (∀ c ∈ (update_contribution2 s cid amount date).contributions,
      0 < c.amount) ∧
    (∀ s', add_member2 s mid name = .ok s' →
      ∀ c ∈ s'.contributions, 0 < c.amount) := by
  have hpos : 0 < amount := lt_of_lt_of_le one_pos hamt
  refine ⟨?_, ?_, ?_⟩
  · intro c hc
    simp only [add_contribution2, List.mem_append, List.mem_singleton] at hc
    rcases hc with h | rfl
    · exact hs c h
    · exact hpos
  · intro c hc
    simp only [update_contribution2, List.mem_map] at hc
    rcases hc with ⟨c0, hc0, rfl⟩
    by_cases hid : c0.id = cid
    · simp only [if_pos hid]
      exact hpos
    · simp only [if_neg hid]
      exact hs c0 hc0
  · intro s' hok c hc
    by_cases hdup : s.members.any (fun p => p.1 == mid)
    · simp [add_member2, hdup] at hok
    · simp only [add_member2, hdup, Bool.false_eq_true, if_false,
        Except.ok.injEq] at hok
      rw [← hok] at hc
      exact hs c hc

/-- Witness for C8: a positive-amount add and update on a compliant store. -/
theorem amount_invariant_preserved_witness :
    (∀ c ∈ (add_contribution2 ⟨[], []⟩ "m1" 2 0).contributions,
      0 < c.amount) ∧
    (∀ c ∈ (update_contribution2 ⟨[], []⟩ 0 2 0).contributions,
      0 < c.amount) ∧
    (∀ s', add_member2 ⟨[], []⟩ "m1" "Alice" = .ok s' →
      ∀ c ∈ s'.contributions, 0 < c.amount) :=
  amount_invariant_preserved ⟨[], []⟩ "m1" "Alice" 0 2 0 (by simp)
    (by norm_num)

lemma compute_interest1_add (rate : ℝ) (freq : Frequency) (today date : ℤ)
    (a1 a2 : ℝ) :
    compute_interest1 rate freq today (a1 + a2) date =
      compute_interest1 rate freq today a1 date +
        compute_interest1 rate freq today a2 date := by
  cases freq <;> simp only [compute_interest1] <;> ring

lemma compute_interest2_add (rate : ℝ) (freq : Frequency) (today date : ℤ)
    (a1 a2 : ℝ) :
    compute_interest2 rate freq today (a1 + a2) date =
      compute_interest2 rate freq today a1 date +
        compute_interest2 rate freq today a2 date := by
  by_cases hf : today < date
  · simp [compute_interest2, hf]
  · cases freq <;> simp only [compute_interest2, if_neg hf] <;> ring

/-- A member's total interest (the `interest` component of
`compute_totals`). -/
noncomputable def member_interest (ci : ℚ → ℤ → ℝ) (mid : String)
    (contribs : List Contribution) : ℝ :=
  (compute_totals ci mid contribs).2.1

/-- C10: both calculators are additive in the amount: splitting an amount
into two parts with the same date yields the same interest, and hence
splitting one stored contribution into two same-date contributions leaves
the member's total interest unchanged. -/
theorem interest_additive (rate : ℝ) (freq : Frequency) (today date : ℤ)
    (a1 a2 : ℝ) (mid : String) (rest : List Contribution)
    (c c1 c2 : Contribution) (h1 : 0 < a1) (h2 : 0 < a2)
    (hm : c.member_id = mid) (hm1 : c1.member_id = mid)
    (hm2 : c2.member_id = mid) (hd1 : c1.date = c.date)
    (hd2 : c2.date = c.date) (hsum : c1.amount + c2.amount = c.amount) :
    compute_interest1 rate freq today (a1 + a2) date =
      compute_interest1 rate freq today a1 date +
        compute_interest1 rate freq today a2 date ∧
    compute_interest2 rate freq today (a1 + a2) date =
      compute_interest2 rate freq today a1 date +
        compute_interest2 rate freq today a2 date ∧
    member_interest (calc2 rate freq today) mid (c1 :: c2 :: rest) =
      member_interest (calc2 rate freq today) mid (c :: rest) := by
  refine ⟨compute_interest1_add rate freq today date a1 a2,
    compute_interest2_add rate freq today date a1 a2, ?_⟩
  have hsum' : ((c1.amount : ℝ)) + ((c2.amount : ℝ)) = ((c.amount : ℝ)) := by
    exact_mod_cast congrArg (fun q : ℚ => (q : ℝ)) hsum
  have hf1 : memberContribs mid (c1 :: c2 :: rest) =
      c1 :: c2 :: memberContribs mid rest := by
    simp [memberContribs, List.filter, hm1, hm2]
  have hf2 : memberContribs mid (c :: rest) = c :: memberContribs mid rest := by
    simp [memberContribs, List.filter, hm]
  simp only [member_interest, compute_totals, hf1, hf2, List.map_cons,
    List.sum_cons, calc2]
  rw [hd1, hd2, ← hsum', compute_interest2_add]
  ring

/-- Witness for C10: concrete amounts 1 and 2, and the demo contribution
split into two halves dated the same day. -/
theorem interest_additive_witness :
    (0 : ℝ) < 1 ∧ (0 : ℝ) < 2 ∧
      (compute_interest1 (12 / 100) .daily 0 (1 + 2) (-3) =
        compute_interest1 (12 / 100) .daily 0 1 (-3) +
          compute_interest1 (12 / 100) .daily 0 2 (-3) ∧
      compute_interest2 (12 / 100) .daily 0 (1 + 2) (-3) =
        compute_interest2 (12 / 100) .daily 0 1 (-3) +
          compute_interest2 (12 / 100) .daily 0 2 (-3) ∧
      member_interest (calc2 (12 / 100) .daily 0) "m1"
          [⟨1, "m1", 1 / 2, 0⟩, ⟨2, "m1", 1 / 2, 0⟩] =
        member_interest (calc2 (12 / 100) .daily 0) "m1" demoContribs) :=
  ⟨one_pos, two_pos,
    interest_additive (12 / 100) .daily 0 (-3) 1 2 "m1" []
      ⟨0, "m1", 1, 0⟩ ⟨1, "m1", 1 / 2, 0⟩ ⟨2, "m1", 1 / 2, 0⟩
      one_pos two_pos rfl rfl rfl rfl rfl (by norm_num)⟩

end Ndundu
